import Mathlib

/-!
Verification of the Currency Conversion Quotation Engine (`bot/rates.py`,
order-creation arithmetic in `bot/main.py`, and the manual rate table).

The Python code is shallowly embedded: prices and timestamps are rationals,
upstream HTTP behaviour is an explicit `Env` oracle, the engine's mutable
fields (`_symbols`, `_exchange_info_ts`, `_price_cache`) form an `EngState`
record that is threaded explicitly, and every operation additionally reports
how many upstream network requests it made.
-/

namespace Bot

/-- Embedding of Python's `str.upper()` restricted to the basic-latin
uppercasing that the engine's tickers use (matches `Char.toUpper`). -/
def pyUpper (s : String) : String :=
  String.mk (s.data.map Char.toUpper)

/-- `BinanceRates._norm` (rates.py lines 27-32): uppercase, then fold the
stablecoins USDT and USDC onto the single pricing symbol USDC. -/
def norm (asset : String) : String :=
  let a := pyUpper asset
  if a = "USDT" ∨ a = "USDC" then "USDC" else a

/-- `RateQuote` (rates.py lines 12-15): rate plus human-auditable path. -/
structure RateQuote where
  rate : ℚ
  path : String
deriving Repr, DecidableEq

/-- One record of Binance `/exchangeInfo`'s `symbols` array: the two fields
`_refresh_symbols` reads. -/
structure SymbolInfo where
  symbol : String
  status : String
deriving Repr, DecidableEq

/-- Upstream oracle: what each network endpoint would answer during the run.
`none` is any transport/parse/status failure (the code's `except`/non-200
branches). `ticker` is `/api/v3/ticker/price` by symbol; `eurPln` is the
Frankfurter EUR→PLN reference rate. -/
structure Env where
  exchangeInfo : Option (List SymbolInfo)
  ticker : String → Option ℚ
  eurPln : Option ℚ

/-- Count of upstream requests issued, by endpoint. -/
structure NetCount where
  info : Nat
  ticker : Nat
  fx : Nat
deriving Repr, DecidableEq

instance : Add NetCount :=
  ⟨fun a b => ⟨a.info + b.info, a.ticker + b.ticker, a.fx + b.fx⟩⟩

/-- Total number of upstream network calls. -/
def NetCount.total (c : NetCount) : Nat := c.info + c.ticker + c.fx

/-- The mutable fields of a `BinanceRates` instance (rates.py lines 19-24):
`cache_ttl`, `_exchange_info_ts`, `_symbols` and `_price_cache`.
The price cache maps `(base, quote)` to `(fetched_at, price)`; dict update is
modelled by consing, with `List.lookup` returning the newest binding. -/
structure EngState where
  cache_ttl : ℚ
  exchange_info_ts : ℚ
  symbols : List String
  price_cache : List ((String × String) × (ℚ × ℚ))
deriving Repr, DecidableEq

/-- `self._price_cache[key] = (now, val)`. -/
def cachePut (s : EngState) (key : String × String) (now val : ℚ) : EngState :=
  { s with price_cache := (key, (now, val)) :: s.price_cache }

/-- `BinanceRates._refresh_symbols` (rates.py lines 34-67): no-op when the
symbol set is non-empty and was refreshed less than 3600 s ago; otherwise one
`/exchangeInfo` request.  Failure (exception or non-200) clears the set and
stamps the time; success keeps the non-empty-named symbols whose status is
`TRADING` and stamps the time. -/
def refreshSymbols (env : Env) (now : ℚ) (s : EngState) : EngState × NetCount :=
  if s.symbols ≠ [] ∧ now - s.exchange_info_ts < 3600 then
    (s, ⟨0, 0, 0⟩)
  else
    match env.exchangeInfo with
    | none =>
        ({ s with symbols := [], exchange_info_ts := now }, ⟨1, 0, 0⟩)
    | some data =>
        let syms := data.filterMap fun r =>
          if r.status = "TRADING" ∧ r.symbol ≠ "" then some r.symbol else none
        ({ s with symbols := syms, exchange_info_ts := now }, ⟨1, 0, 0⟩)

/-- `BinanceRates.get_price` (rates.py lines 84-128). Returns the optional
price `1 base = X quote`, the updated engine state and the upstream requests
issued.  Mirrors the source: identity pair short-circuit, catalog refresh,
TTL-guarded cache lookup, then symbol-gated direct/inverse ticker fetches, or
blind direct/inverse fetches in fallback mode (empty catalog).  The inverse
branch inverts only under the source's `inv and inv != 0` truthiness guard. -/
def getPrice (env : Env) (now : ℚ) (s : EngState) (base quote : String) :
    Option ℚ × EngState × NetCount :=
  let base := pyUpper base
  let quote := pyUpper quote
  if base = quote then (some 1, s, ⟨0, 0, 0⟩)
  else
    let rs := refreshSymbols env now s
    let s1 := rs.1
    let c1 := rs.2
    let key := (base, quote)
    let cached : Option ℚ :=
      match s1.price_cache.lookup key with
      | some (ts, v) => if now - ts < s1.cache_ttl then some v else none
      | none => none
    match cached with
    | some v => (some v, s1, c1)
    | none =>
      let direct := base ++ quote
      let inverse := quote ++ base
      let tryInverse : EngState → NetCount → Option ℚ × EngState × NetCount :=
        fun s c =>
          if inverse ∈ s.symbols then
            match env.ticker inverse with
            | some inv =>
                if inv ≠ 0 then
                  (some (1 / inv), cachePut s key now (1 / inv), c + ⟨0, 1, 0⟩)
                else (none, s, c + ⟨0, 1, 0⟩)
            | none => (none, s, c + ⟨0, 1, 0⟩)
          else (none, s, c)
      if s1.symbols ≠ [] then
        if direct ∈ s1.symbols then
          match env.ticker direct with
          | some val => (some val, cachePut s1 key now val, c1 + ⟨0, 1, 0⟩)
          | none => tryInverse s1 (c1 + ⟨0, 1, 0⟩)
        else tryInverse s1 c1
      else
        match env.ticker direct with
        | some val => (some val, cachePut s1 key now val, c1 + ⟨0, 1, 0⟩)
        | none =>
          match env.ticker inverse with
          | some inv =>
              if inv ≠ 0 then
                (some (1 / inv), cachePut s1 key now (1 / inv), c1 + ⟨0, 2, 0⟩)
              else (none, s1, c1 + ⟨0, 2, 0⟩)
          | none => (none, s1, c1 + ⟨0, 2, 0⟩)

/-- Checked division: Python's `/`, which raises `ZeroDivisionError` on a
zero divisor. -/
def divE (a b : ℚ) : Except String ℚ :=
  if b = 0 then .error "ZeroDivisionError" else .ok (a / b)

/-- `BinanceRates.get_price` again, but with every division modelled by the
raising `divE`, so that "never raises" is a provable statement rather than a
modelling artifact.  Identical to `getPrice` except that the two reciprocal
sites go through `divE`. -/
def getPriceE (env : Env) (now : ℚ) (s : EngState) (base quote : String) :
    Except String (Option ℚ × EngState × NetCount) :=
  let base := pyUpper base
  let quote := pyUpper quote
  if base = quote then .ok (some 1, s, ⟨0, 0, 0⟩)
  else
    let rs := refreshSymbols env now s
    let s1 := rs.1
    let c1 := rs.2
    let key := (base, quote)
    let cached : Option ℚ :=
      match s1.price_cache.lookup key with
      | some (ts, v) => if now - ts < s1.cache_ttl then some v else none
      | none => none
    match cached with
    | some v => .ok (some v, s1, c1)
    | none =>
      let direct := base ++ quote
      let inverse := quote ++ base
      let tryInverse : EngState → NetCount →
          Except String (Option ℚ × EngState × NetCount) :=
        fun s c =>
          if inverse ∈ s.symbols then
            match env.ticker inverse with
            | some inv =>
                if inv ≠ 0 then
                  match divE 1 inv with
                  | .ok v => .ok (some v, cachePut s key now v, c + ⟨0, 1, 0⟩)
                  | .error e => .error e
                else .ok (none, s, c + ⟨0, 1, 0⟩)
            | none => .ok (none, s, c + ⟨0, 1, 0⟩)
          else .ok (none, s, c)
      if s1.symbols ≠ [] then
        if direct ∈ s1.symbols then
          match env.ticker direct with
          | some val => .ok (some val, cachePut s1 key now val, c1 + ⟨0, 1, 0⟩)
          | none => tryInverse s1 (c1 + ⟨0, 1, 0⟩)
        else tryInverse s1 c1
      else
        match env.ticker direct with
        | some val => .ok (some val, cachePut s1 key now val, c1 + ⟨0, 1, 0⟩)
        | none =>
          match env.ticker inverse with
          | some inv =>
              if inv ≠ 0 then
                match divE 1 inv with
                | .ok v => .ok (some v, cachePut s1 key now v, c1 + ⟨0, 2, 0⟩)
                | .error e => .error e
              else .ok (none, s1, c1 + ⟨0, 2, 0⟩)
          | none => .ok (none, s1, c1 + ⟨0, 2, 0⟩)

/-- The local `show` helper inside `quote` (rates.py lines 154-155):
annotate a displayed ticker with its pricing symbol when they differ. -/
def showAs (a_disp a_norm : String) : String :=
  if a_disp ≠ a_norm then a_disp ++ "(as " ++ a_norm ++ ")" else a_disp

/-- `BinanceRates.quote` (rates.py lines 141-235).  Returns `.ok` for a
returned `RateQuote` and `.error msg` for `raise ValueError(msg)`, threading
the engine state and upstream request counts.  The literal class sets are the
source's `crypto = {"USDC","SOL","ETH"}` and `fiat = {"TRY","PLN"}`; since
`fiat` is that two-element literal, the source's `if t_disp == "TRY"` /
`if t_disp == "PLN"` chain inside a `t_disp in fiat` guard is embedded as an
if/else (the fall-through after both tests is unreachable). -/
def quoteOp (env : Env) (now : ℚ) (s : EngState) (from_asset to_asset : String) :
    Except String RateQuote × EngState × NetCount :=
  let f_disp := pyUpper from_asset
  let t_disp := pyUpper to_asset
  let f := norm f_disp
  let t := norm t_disp
  let f_show := showAs f_disp f
  let t_show := showAs t_disp t
  if f = t then (.ok ⟨1, f_show ++ "->" ++ t_show⟩, s, ⟨0, 0, 0⟩)
  else
    match getPrice env now s f t with
    | (some d, s, c) => (.ok ⟨d, f_show ++ "->" ++ t_show⟩, s, c)
    | (none, s, c) =>
      let crypto := ["USDC", "SOL", "ETH"]
      let fiat := ["TRY", "PLN"]
      if f ∈ crypto ∧ t ∈ crypto then
        let (f_usdc, s1, ca) :=
          if f ≠ "USDC" then getPrice env now s f "USDC" else (some 1, s, ⟨0, 0, 0⟩)
        let (usdc_t, s2, cb) :=
          if t ≠ "USDC" then getPrice env now s1 "USDC" t else (some 1, s1, ⟨0, 0, 0⟩)
        match f_usdc, usdc_t with
        | some a, some b =>
            (.ok ⟨a * b, f_show ++ "->USDC->" ++ t_show⟩, s2, c + ca + cb)
        | _, _ => (.error "No route for crypto pair", s2, c + ca + cb)
      else if f ∈ crypto ∧ t_disp ∈ fiat then
        let (f_usdc, s1, ca) :=
          if f ≠ "USDC" then getPrice env now s f "USDC" else (some 1, s, ⟨0, 0, 0⟩)
        match f_usdc with
        | none => (.error "No USDC route for crypto", s1, c + ca)
        | some fu =>
          if t_disp = "TRY" then
            let (usdc_try, s2, cb) := getPrice env now s1 "USDC" "TRY"
            match usdc_try with
            | none => (.error "USDCTRY not available", s2, c + ca + cb)
            | some ut =>
                (.ok ⟨fu * ut, f_show ++ "->USDC->TRY"⟩, s2, c + ca + cb)
          else
            let (usdc_eur0, s2, cb) := getPrice env now s1 "USDC" "EUR"
            let (usdc_eur, s3, cc) :=
              match usdc_eur0 with
              | some v => (some v, s2, (⟨0, 0, 0⟩ : NetCount))
              | none =>
                let (eur_usdc, s3, cc) := getPrice env now s2 "EUR" "USDC"
                match eur_usdc with
                | some w => if w ≠ 0 then (some (1 / w), s3, cc) else (none, s3, cc)
                | none => (none, s3, cc)
            let eur_pln := env.eurPln
            let cfx : NetCount := ⟨0, 0, 1⟩
            match usdc_eur, eur_pln with
            | some ue, some ep =>
                (.ok ⟨fu * (ue * ep), f_show ++ "->USDC->EUR->PLN"⟩, s3,
                  c + ca + cb + cc + cfx)
            | _, _ =>
                (.error "PLN route not available (USDC/EUR or EUR/PLN)", s3,
                  c + ca + cb + cc + cfx)
      else if f_disp ∈ fiat ∧ t ∈ crypto then
        if f_disp = "TRY" then
          let (usdc_try, s1, ca) := getPrice env now s "USDC" "TRY"
          match usdc_try with
          | none => (.error "USDCTRY not available", s1, c + ca)
          | some ut =>
            if ut ≠ 0 then
              let try_usdc := 1 / ut
              let (usdc_t, s2, cb) :=
                if t ≠ "USDC" then getPrice env now s1 "USDC" t
                else (some 1, s1, ⟨0, 0, 0⟩)
              match usdc_t with
              | some b =>
                  (.ok ⟨try_usdc * b, "TRY->USDC->" ++ t_show⟩, s2, c + ca + cb)
              | none => (.error "No USDC route for crypto", s2, c + ca + cb)
            else (.error "USDCTRY not available", s1, c + ca)
        else
          let eur_pln := env.eurPln
          let cfx : NetCount := ⟨0, 0, 1⟩
          let (usdc_eur0, s1, ca) := getPrice env now s "USDC" "EUR"
          let (usdc_eur, s2, cb) :=
            match usdc_eur0 with
            | some v => (some v, s1, (⟨0, 0, 0⟩ : NetCount))
            | none =>
              let (eur_usdc, s2, cb) := getPrice env now s1 "EUR" "USDC"
              match eur_usdc with
              | some w => if w ≠ 0 then (some (1 / w), s2, cb) else (none, s2, cb)
              | none => (none, s2, cb)
          match eur_pln, usdc_eur with
          | some ep, some ue =>
            if ep ≠ 0 ∧ ue ≠ 0 then
              let pln_eur := 1 / ep
              let eur_to_usdc := 1 / ue
              let pln_usdc := pln_eur * eur_to_usdc
              let (usdc_t, s3, cc) :=
                if t ≠ "USDC" then getPrice env now s2 "USDC" t
                else (some 1, s2, ⟨0, 0, 0⟩)
              match usdc_t with
              | some b =>
                  (.ok ⟨pln_usdc * b, "PLN->EUR->USDC->" ++ t_show⟩, s3,
                    c + cfx + ca + cb + cc)
              | none =>
                  (.error "No USDC route for crypto", s3, c + cfx + ca + cb + cc)
            else
              (.error "PLN route not available (EUR/PLN or USDC/EUR)", s2,
                c + cfx + ca + cb)
          | _, _ =>
              (.error "PLN route not available (EUR/PLN or USDC/EUR)", s2,
                c + cfx + ca + cb)
      else (.error "Unsupported conversion", s, c)

/-- The spec's surfaced error taxonomy (§7), restricted to the kinds the
live-market router can raise. -/
inductive ErrKind where
  | noRoute
  | unsupportedPair
deriving Repr, DecidableEq

/-- Modelled from the spec, §7: classification of the router's raised
`ValueError` messages into the spec's error kinds.  `"Unsupported
conversion"` is the no-routing-rule failure (**UnsupportedPair**); every
other message names a missing leg (**NoRoute**). -/
def errKind (msg : String) : ErrKind :=
  if msg = "Unsupported conversion" then .unsupportedPair else .noRoute

/-- A fully unavailable upstream: catalog fetch, every ticker fetch and the
fiat reference fetch all fail. -/
def envFail : Env := ⟨none, fun _ => none, none⟩

/-- A freshly constructed engine (rates.py lines 19-24): default TTL 10,
timestamp 0, empty catalog, empty cache. -/
def state0 : EngState := ⟨10, 0, [], []⟩

/-- Upstream where the catalog fetch fails and the ticker endpoint reports
price `0` for symbol `"AB"`. -/
def envZero : Env := ⟨none, fun sym => if sym = "AB" then some 0 else none, none⟩

/-- Upstream where the catalog fetch fails and the ticker endpoint reports
price `2` for the inverse symbol `"BA"` only. -/
def envInv : Env := ⟨none, fun sym => if sym = "BA" then some 2 else none, none⟩

/-- Upstream with working catalog listing `"AB"` as TRADING and a ticker
price of `5` for `"AB"`. -/
def envAB : Env :=
  ⟨some [⟨"AB", "TRADING"⟩], fun sym => if sym = "AB" then some 5 else none, none⟩

/-- Engine state after `get_price("A","B")` primed the cache from `envAB` at
time 0. -/
def stateAB : EngState := ⟨10, 0, ["AB"], [(("A", "B"), (0, 5))]⟩

/-- Engine state with a fresh catalog listing `"AB"` but an empty price
cache. -/
def stateCat : EngState := ⟨10, 0, ["AB"], []⟩

/-- The persisted order fields computed in `on_fee` (main.py lines 272-290)
that derive from the quote: `amount_from`, `amount_to`, `rate`, `fee_pct`. -/
structure OrderFields where
  amount_from : ℚ
  amount_to : ℚ
  rate : ℚ
  fee_pct : ℚ
deriving Repr, DecidableEq

/-- The order arithmetic of `on_fee` (main.py lines 272-290): once a quote is
obtained, `amount_to_gross = amount_from * rate`, then
`amount_to_net = amount_to_gross * (1 - fee_pct / 100)`, and the record is
persisted with `amount_to = amount_to_net`, the quoted `rate` and the
selected `fee_pct`. -/
def onFeeOrder (q : RateQuote) (amount_from fee_pct : ℚ) : OrderFields :=
  let rate := q.rate
  let amount_to_gross := amount_from * rate
  let amount_to_net := amount_to_gross * (1 - fee_pct / 100)
  ⟨amount_from, amount_to_net, rate, fee_pct⟩

/-- A manual rate table of one tier: pair code → rate. -/
abbrev ManualTable := List (String × ℚ)

/-- Strictly-preferred comparison used by the nearest-tier scan: closer to
the requested fee, or equally close with a lower tier value. -/
def tierBetter (fee : ℚ) (c best : ℚ × ManualTable) : Prop :=
  |c.1 - fee| < |best.1 - fee| ∨ (|c.1 - fee| = |best.1 - fee| ∧ c.1 < best.1)

instance (fee : ℚ) (c best : ℚ × ManualTable) : Decidable (tierBetter fee c best) := by
  unfold tierBetter
  infer_instance

/-- Lexicographic (distance, tier value) preorder: `r` is at least as good a
match for `fee` as `t`. -/
def tierLE (fee : ℚ) (r t : ℚ × ManualTable) : Prop :=
  |r.1 - fee| < |t.1 - fee| ∨ (|r.1 - fee| = |t.1 - fee| ∧ r.1 ≤ t.1)

instance (fee : ℚ) (r t : ℚ × ManualTable) : Decidable (tierLE fee r t) := by
  unfold tierLE
  infer_instance

/-- Modelled from the spec: `ManualVipRates.select_tier`.  The class is
imported from `bot.rates` by `bot/main.py` (lines 20 and 673) but its source
is not in the repository; §4.7 of the spec defines it: exact match on the
fee's tier key if present, else the tier with minimum absolute distance to
the requested fee, equidistant ties resolved toward the lower tier value. -/
def select_tier (tiers : List (ℚ × ManualTable)) (fee : ℚ) :
    Option (ℚ × ManualTable) :=
  match tiers.find? (fun t => decide (t.1 = fee)) with
  | some t => some t
  | none =>
    match tiers with
    | [] => none
    | t :: ts =>
        some (ts.foldl (fun best c => if tierBetter fee c best then c else best) t)

section Theorems

theorem toNat_ofNat_valid (n : Nat) (h : n.isValidChar) :
    (Char.ofNat n).toNat = n := by
  rw [Char.ofNat, dif_pos h]
  simp [Char.ofNatAux, Char.toNat, UInt32.toNat]

theorem toUpper_toUpper (c : Char) : c.toUpper.toUpper = c.toUpper := by
  unfold Char.toUpper
  by_cases h : c.toNat ≥ 97 ∧ c.toNat ≤ 122
  · rw [if_pos h]
    have hv : (Char.ofNat (c.toNat - 32)).toNat = c.toNat - 32 :=
      toNat_ofNat_valid _ (Or.inl (by omega))
    rw [if_neg (by omega)]
  · rw [if_neg h, if_neg h]

theorem pyUpper_pyUpper (s : String) : pyUpper (pyUpper s) = pyUpper s := by
  have hf : Char.toUpper ∘ Char.toUpper = Char.toUpper := funext toUpper_toUpper
  simp only [pyUpper, List.map_map, hf]

theorem norm_pyUpper (s : String) : norm (pyUpper s) = norm s := by
  unfold norm
  rw [pyUpper_pyUpper]

/-- **C7**: asset normalization is idempotent: for every symbol string `x`,
`normalize (normalize x) = normalize x` (`BinanceRates._norm`). -/
theorem norm_idempotent (x : String) : norm (norm x) = norm x := by
  unfold norm
  by_cases h : pyUpper x = "USDT" ∨ pyUpper x = "USDC"
  · rw [if_pos h]
    rfl
  · rw [if_neg h, pyUpper_pyUpper, if_neg h]

/-- **C8**: for every asset `A` (and any environment, time and engine
state), `quote(A, A)` returns a `RateQuote` with rate exactly `1` and the
trivial path `A->A` (with the `(as …)` pricing annotation when normalization
folds `A`), leaves the state unchanged, and issues zero network calls
(rates.py lines 160-161). -/
theorem quote_identity (env : Env) (now : ℚ) (s : EngState) (A : String) :
    quoteOp env now s A A =
      (.ok ⟨1, showAs (pyUpper A) (norm (pyUpper A)) ++ "->" ++
                showAs (pyUpper A) (norm (pyUpper A))⟩,
       s, ⟨0, 0, 0⟩) := by
  unfold quoteOp
  simp

/-- **C10**: any two tickers with the same canonical pricing symbol quote at
rate exactly `1` with zero network calls, and the path is the two displayed
(uppercased) tickers, each annotated `X(as Y)` exactly when its case-folded
form `X` differs from its canonical symbol `Y` (rates.py lines 148-161). -/
theorem quote_same_canonical (env : Env) (now : ℚ) (s : EngState)
    (x y : String) (h : norm x = norm y) :
    quoteOp env now s x y =
      (.ok ⟨1, showAs (pyUpper x) (norm (pyUpper x)) ++ "->" ++
                showAs (pyUpper y) (norm (pyUpper y))⟩,
       s, ⟨0, 0, 0⟩) := by
  have hfx : norm (pyUpper x) = norm (pyUpper y) := by
    rw [norm_pyUpper, norm_pyUpper, h]
  unfold quoteOp
  simp [hfx]

/-- Witness for C10 at a concrete input: quoting lowercase `usdt` against
`USDC` yields rate `1`, the annotated path and no network traffic. -/
theorem quote_same_canonical_witness :
    quoteOp envFail 0 state0 "usdt" "USDC" =
      (.ok ⟨1, "USDT(as USDC)->USDC"⟩, state0, ⟨0, 0, 0⟩) := by
  rw [quote_same_canonical envFail 0 state0 "usdt" "USDC" (by decide)]
  rfl

/-- **C2 (counterexample)**: with an empty catalog (fallback mode) and both
ticker fetches for `XXXYYY` and `YYYXXX` failing, `quote("XXX","YYY")` raises
`"Unsupported conversion"`, whose kind is **UnsupportedPair**, not
**NoRoute** as the claim states. -/
theorem quote_xxx_yyy_unsupported :
    (quoteOp envFail 0 state0 "XXX" "YYY").1 = .error "Unsupported conversion"
    ∧ errKind "Unsupported conversion" = ErrKind.unsupportedPair
    ∧ ErrKind.unsupportedPair ≠ ErrKind.noRoute := by
  refine ⟨rfl, rfl, by decide⟩

/-- **C2 (amended)**: in the same empty-catalog, all-fetches-fail scenario
the quote fails with **UnsupportedPair** for `XXX`/`YYY` (they belong to no
registered asset class); a pair of registered crypto assets such as
`SOL`/`ETH` fails with the **NoRoute** kind (`"No route for crypto pair"`). -/
theorem quote_xxx_yyy_amended :
    (quoteOp envFail 0 state0 "XXX" "YYY").1 = .error "Unsupported conversion"
    ∧ errKind "Unsupported conversion" ≠ ErrKind.noRoute
    ∧ (quoteOp envFail 0 state0 "SOL" "ETH").1 = .error "No route for crypto pair"
    ∧ errKind "No route for crypto pair" = ErrKind.noRoute := by
  refine ⟨rfl, by decide, rfl, rfl⟩

/-- **C9**: whenever `on_fee` obtains a quote, the persisted order satisfies
`amount_to = amount_from * quote.rate * (1 - fee_pct / 100)` and stores
exactly the quoted rate and the selected fee percentage
(main.py lines 272-290). -/
theorem on_fee_order_fields (q : RateQuote) (amount_from fee_pct : ℚ) :
    (onFeeOrder q amount_from fee_pct).amount_to
        = amount_from * q.rate * (1 - fee_pct / 100)
    ∧ (onFeeOrder q amount_from fee_pct).rate = q.rate
    ∧ (onFeeOrder q amount_from fee_pct).fee_pct = fee_pct
    ∧ (onFeeOrder q amount_from fee_pct).amount_from = amount_from := by
  refine ⟨rfl, rfl, rfl, rfl⟩

/-- **C5 (counterexample)**: the catalog is *not* refreshed at most once per
interval when it is empty.  A refresh attempt at time 0 leaves the catalog
empty (upstream failed) and stamps the time; the very next refresh call at
time 1 — well inside the 3600 s interval — issues a new upstream fetch
(`info = 1`), because `_refresh_symbols` only short-circuits when
`self._symbols` is non-empty (rates.py line 40). -/
theorem refresh_retries_when_empty :
    refreshSymbols envFail 0 state0 = (state0, ⟨1, 0, 0⟩)
    ∧ refreshSymbols envFail 1 state0 = (⟨10, 1, [], []⟩, ⟨1, 0, 0⟩)
    ∧ (⟨1, 0, 0⟩ : NetCount).info ≠ 0 := by
  refine ⟨rfl, rfl, by decide⟩

/-- **C5 (amended)**: a refresh call within the interval is a no-op only
when the catalog is non-empty; whenever the catalog is empty (fallback
mode), every refresh call issues a new upstream catalog fetch, regardless of
how recent the previous attempt was (rates.py lines 34-67). -/
theorem refresh_interval_amended (env : Env) (now : ℚ) (s : EngState) :
    (s.symbols ≠ [] → now - s.exchange_info_ts < 3600 →
      refreshSymbols env now s = (s, ⟨0, 0, 0⟩))
    ∧ (s.symbols = [] → (refreshSymbols env now s).2 = ⟨1, 0, 0⟩) := by
  constructor
  · intro h1 h2
    unfold refreshSymbols
    rw [if_pos ⟨h1, h2⟩]
  · intro h
    unfold refreshSymbols
    rw [if_neg (by simp [h])]
    cases env.exchangeInfo <;> rfl

/-- Witness for the amended C5 at concrete inputs: a non-empty fresh catalog
short-circuits, and an empty catalog re-fetches. -/
theorem refresh_interval_amended_witness :
    refreshSymbols envFail 1 ⟨10, 0, ["AB"], []⟩ = (⟨10, 0, ["AB"], []⟩, ⟨0, 0, 0⟩)
    ∧ (refreshSymbols envFail 1 state0).2 = ⟨1, 0, 0⟩ := by
  exact ⟨(refresh_interval_amended envFail 1 ⟨10, 0, ["AB"], []⟩).1
          (by decide) (by norm_num),
         (refresh_interval_amended envFail 1 state0).2 rfl⟩

theorem refresh_preserves_cache (env : Env) (now : ℚ) (s : EngState) :
    (refreshSymbols env now s).1.price_cache = s.price_cache := by
  unfold refreshSymbols
  split
  · rfl
  · cases env.exchangeInfo <;> rfl

theorem refresh_preserves_ttl (env : Env) (now : ℚ) (s : EngState) :
    (refreshSymbols env now s).1.cache_ttl = s.cache_ttl := by
  unfold refreshSymbols
  split
  · rfl
  · cases env.exchangeInfo <;> rfl

theorem refresh_ticker_zero (env : Env) (now : ℚ) (s : EngState) :
    (refreshSymbols env now s).2.ticker = 0 := by
  unfold refreshSymbols
  split
  · rfl
  · cases env.exchangeInfo <;> rfl

theorem refresh_of_empty_fail (env : Env) (now : ℚ) (s : EngState)
    (hsym : s.symbols = []) (hinfo : env.exchangeInfo = none) :
    refreshSymbols env now s =
      ({ s with symbols := [], exchange_info_ts := now }, ⟨1, 0, 0⟩) := by
  unfold refreshSymbols
  rw [if_neg (by simp [hsym]), hinfo]

/-- **C4 (counterexample)**: a fetched price of `0` is *not* treated as
absent: with an empty catalog and the ticker endpoint reporting `0` for the
direct symbol, `get_price` returns `0` to the caller (rates.py lines
117-121 perform only an `is not None` check on the direct fetch). -/
theorem getPrice_returns_zero :
    (getPrice envZero 0 state0 "A" "B").1 = some 0
    ∧ (getPrice envZero 0 state0 "A" "B").1 ≠ none := by
  refine ⟨rfl, by decide⟩

/-- **C4 (amended)**: only the *inverse* leg is zero-guarded.  In fallback
mode with a cache miss: a direct fetched value is returned as-is whenever
present — including zero or negative values — while an inverse fetched value
is inverted and returned only when it is nonzero, and a zero inverse fetch
yields absent (the reciprocal is taken only under the source's
`inv and inv != 0` guard, rates.py lines 117-126). -/
theorem getPrice_zero_guard_amended (env : Env) (now : ℚ) (s : EngState)
    (b q : String)
    (hne : pyUpper b ≠ pyUpper q)
    (hsym : s.symbols = [])
    (hinfo : env.exchangeInfo = none)
    (hcache : s.price_cache.lookup (pyUpper b, pyUpper q) = none) :
    (∀ v, env.ticker (pyUpper b ++ pyUpper q) = some v →
        (getPrice env now s b q).1 = some v)
    ∧ (env.ticker (pyUpper b ++ pyUpper q) = none →
        ∀ w, env.ticker (pyUpper q ++ pyUpper b) = some w → w ≠ 0 →
          (getPrice env now s b q).1 = some (1 / w))
    ∧ (env.ticker (pyUpper b ++ pyUpper q) = none →
        env.ticker (pyUpper q ++ pyUpper b) = some 0 →
          (getPrice env now s b q).1 = none) := by
  have hrefresh := refresh_of_empty_fail env now s hsym hinfo
  refine ⟨?_, ?_, ?_⟩
  · intro v hv
    simp [getPrice, hrefresh, hcache, hne, hv]
  · intro hd w hw hw0
    simp [getPrice, hrefresh, hcache, hne, hd, hw, hw0]
  · intro hd hw
    simp [getPrice, hrefresh, hcache, hne, hd, hw]

/-- Witness for the amended C4: from `envInv` (only the inverse symbol `BA`
priced, at `2`), the fallback path inverts under the zero guard and returns
`1/2`. -/
theorem getPrice_zero_guard_amended_witness :
    (getPrice envInv 0 state0 "A" "B").1 = some (1 / 2) := by
  exact (getPrice_zero_guard_amended envInv 0 state0 "A" "B"
    (by decide) rfl rfl rfl).2.1 rfl 2 rfl (by norm_num)

@[simp] theorem NetCount.add_info (a b : NetCount) :
    (a + b).info = a.info + b.info := rfl

@[simp] theorem NetCount.add_ticker (a b : NetCount) :
    (a + b).ticker = a.ticker + b.ticker := rfl

@[simp] theorem NetCount.add_fx (a b : NetCount) :
    (a + b).fx = a.fx + b.fx := rfl

theorem quoteOp_direct (env : Env) (now : ℚ) (s s' : EngState) (c : NetCount)
    (x y : String) (d : ℚ)
    (hne : norm (pyUpper x) ≠ norm (pyUpper y))
    (hg : getPrice env now s (norm (pyUpper x)) (norm (pyUpper y)) = (some d, s', c)) :
    quoteOp env now s x y =
      (.ok ⟨d, showAs (pyUpper x) (norm (pyUpper x)) ++ "->" ++
                showAs (pyUpper y) (norm (pyUpper y))⟩, s', c) := by
  unfold quoteOp
  rw [if_neg hne, hg]

/-- **C3 (counterexample)**: two `quote()` calls for the same pair inside
the TTL window issue *two* upstream network calls in total, not at most one:
the priming call at time 0 issues the catalog fetch plus the ticker fetch,
and only the second call (time 1, TTL 10) is free. -/
theorem cache_two_calls_counterexample :
    quoteOp envAB 0 state0 "A" "B" = (.ok ⟨5, "A->B"⟩, stateAB, ⟨1, 1, 0⟩)
    ∧ quoteOp envAB 1 stateAB "A" "B" = (.ok ⟨5, "A->B"⟩, stateAB, ⟨0, 0, 0⟩)
    ∧ (⟨1, 1, 0⟩ : NetCount).total + (⟨0, 0, 0⟩ : NetCount).total = 2
    ∧ ¬ ((⟨1, 1, 0⟩ : NetCount).total + (⟨0, 0, 0⟩ : NetCount).total ≤ 1) := by
  refine ⟨rfl, ?_, rfl, by decide⟩
  have hg : getPrice envAB 1 stateAB "A" "B" = (some 5, stateAB, ⟨0, 0, 0⟩) := by
    norm_num [getPrice, refreshSymbols, envAB, stateAB, cachePut, List.lookup,
      show pyUpper "A" = "A" from rfl, show pyUpper "B" = "B" from rfl]
    decide
  rw [quoteOp_direct envAB 1 stateAB stateAB ⟨0, 0, 0⟩ "A" "B" 5 (by decide) hg]
  rfl

/-- **C3 (amended)**: the cache bounds *ticker* traffic relative to the
stored entry's fetch time: a `get_price` call finding a cache entry stored
less than TTL ago returns it with zero ticker fetches; a call finding only
a stale (or no) entry, with the pair listed in a fresh non-empty catalog,
issues a new ticker fetch.  (The claim's "at most one upstream network call
in total" fails because the catalog refresh and a failed direct fetch are
upstream calls too.) -/
theorem cache_ttl_amended :
    (∀ (env : Env) (now : ℚ) (s : EngState) (b q : String) (ts v : ℚ),
        pyUpper b ≠ pyUpper q →
        s.price_cache.lookup (pyUpper b, pyUpper q) = some (ts, v) →
        now - ts < s.cache_ttl →
        (getPrice env now s b q).1 = some v
          ∧ (getPrice env now s b q).2.2.ticker = 0)
    ∧ (∀ (env : Env) (now : ℚ) (s : EngState) (b q : String),
        pyUpper b ≠ pyUpper q →
        s.symbols ≠ [] →
        now - s.exchange_info_ts < 3600 →
        (∀ ts v, s.price_cache.lookup (pyUpper b, pyUpper q) = some (ts, v) →
          s.cache_ttl ≤ now - ts) →
        (pyUpper b ++ pyUpper q) ∈ s.symbols →
        1 ≤ (getPrice env now s b q).2.2.ticker) := by
  constructor
  · intro env now s b q ts v hne hlook httl
    constructor
    · simp [getPrice, hne, refresh_preserves_cache, hlook,
            refresh_preserves_ttl, httl]
    · simp [getPrice, hne, refresh_preserves_cache, hlook,
            refresh_preserves_ttl, httl, refresh_ticker_zero]
  · intro env now s b q hne hsne hfresh hstale hmem
    have hrefresh : refreshSymbols env now s = (s, ⟨0, 0, 0⟩) := by
      unfold refreshSymbols
      rw [if_pos ⟨hsne, hfresh⟩]
    cases hl : s.price_cache.lookup (pyUpper b, pyUpper q) with
    | none =>
        cases hd : env.ticker (pyUpper b ++ pyUpper q) with
        | some val => simp [getPrice, hne, hrefresh, hl, hsne, hmem, hd]
        | none =>
            by_cases hi : (pyUpper q ++ pyUpper b) ∈ s.symbols
            · cases hw : env.ticker (pyUpper q ++ pyUpper b) with
              | some w =>
                  by_cases hw0 : w ≠ 0 <;>
                    simp [getPrice, hne, hrefresh, hl, hsne, hmem, hd, hi, hw, hw0]
              | none => simp [getPrice, hne, hrefresh, hl, hsne, hmem, hd, hi, hw]
            · simp [getPrice, hne, hrefresh, hl, hsne, hmem, hd, hi]
    | some tv =>
        obtain ⟨ts, v⟩ := tv
        have hT := hstale ts v hl
        cases hd : env.ticker (pyUpper b ++ pyUpper q) with
        | some val =>
            simp [getPrice, hne, hrefresh, hl, hsne, hmem, hd, not_lt.mpr hT]
        | none =>
            by_cases hi : (pyUpper q ++ pyUpper b) ∈ s.symbols
            · cases hw : env.ticker (pyUpper q ++ pyUpper b) with
              | some w =>
                  by_cases hw0 : w ≠ 0 <;>
                    simp [getPrice, hne, hrefresh, hl, hsne, hmem, hd, hi, hw,
                          hw0, not_lt.mpr hT]
              | none =>
                  simp [getPrice, hne, hrefresh, hl, hsne, hmem, hd, hi, hw,
                        not_lt.mpr hT]
            · simp [getPrice, hne, hrefresh, hl, hsne, hmem, hd, hi,
                    not_lt.mpr hT]

/-- Witness for the amended C3 at concrete inputs: a fresh cache entry is
served with zero ticker fetches, and a stale one triggers a new fetch. -/
theorem cache_ttl_amended_witness :
    ((getPrice envFail 1 stateAB "A" "B").1 = some 5
      ∧ (getPrice envFail 1 stateAB "A" "B").2.2.ticker = 0)
    ∧ 1 ≤ (getPrice envAB 20 stateCat "A" "B").2.2.ticker := by
  constructor
  · exact cache_ttl_amended.1 envFail 1 stateAB "A" "B" 0 5
      (by decide) (by decide) (by norm_num [stateAB])
  · exact cache_ttl_amended.2 envAB 20 stateCat "A" "B"
      (by decide) (by decide) (by norm_num [stateCat])
      (by intro ts v h
          simp [stateCat] at h)
      (by decide)

/-- **C6**: `get_price` never raises.  `getPriceE` models every Python
division by the raising `divE`; for every environment (hence every upstream
transport/parse behaviour), time, engine state and input pair it returns
`.ok` of exactly the total function's result — the `inv != 0` guard makes
the reciprocal sites safe, and all fetch failures are already absorbed as
`none` (rates.py lines 69-128). -/
theorem getPrice_never_raises (env : Env) (now : ℚ) (s : EngState)
    (b q : String) :
    getPriceE env now s b q = .ok (getPrice env now s b q) := by
  simp only [getPriceE, getPrice]
  repeat' split
  all_goals try rfl
  all_goals simp_all [divE]

theorem tierLE_refl (fee : ℚ) (t : ℚ × ManualTable) : tierLE fee t t :=
  Or.inr ⟨rfl, le_refl _⟩

theorem tierLE_trans (fee : ℚ) {a b c : ℚ × ManualTable}
    (h1 : tierLE fee a b) (h2 : tierLE fee b c) : tierLE fee a c := by
  unfold tierLE at h1 h2 ⊢
  rcases h1 with h1 | ⟨h1, h1'⟩ <;> rcases h2 with h2 | ⟨h2, h2'⟩ <;>
    first
      | (left; linarith)
      | (right; constructor <;> linarith)

theorem step_tierLE_left (fee : ℚ) (b c : ℚ × ManualTable) :
    tierLE fee (if tierBetter fee c b then c else b) b := by
  by_cases h : tierBetter fee c b
  · rw [if_pos h]
    unfold tierBetter at h
    rcases h with h | ⟨h, h'⟩
    · exact Or.inl h
    · exact Or.inr ⟨h, le_of_lt h'⟩
  · rw [if_neg h]
    exact tierLE_refl fee b

theorem step_tierLE_right (fee : ℚ) (b c : ℚ × ManualTable) :
    tierLE fee (if tierBetter fee c b then c else b) c := by
  by_cases h : tierBetter fee c b
  · rw [if_pos h]
    exact tierLE_refl fee c
  · rw [if_neg h]
    unfold tierBetter at h
    push_neg at h
    rcases lt_or_eq_of_le h.1 with hlt | heq
    · exact Or.inl hlt
    · exact Or.inr ⟨heq, h.2 heq.symm⟩

theorem foldl_best_spec (fee : ℚ) :
    ∀ (ts : List (ℚ × ManualTable)) (b : ℚ × ManualTable),
      (ts.foldl (fun best c => if tierBetter fee c best then c else best) b = b
        ∨ ts.foldl (fun best c => if tierBetter fee c best then c else best) b ∈ ts)
      ∧ ∀ t, (t = b ∨ t ∈ ts) →
          tierLE fee (ts.foldl (fun best c => if tierBetter fee c best then c else best) b) t := by
  intro ts
  induction ts with
  | nil =>
      intro b
      refine ⟨Or.inl rfl, ?_⟩
      rintro t (rfl | ht)
      · exact tierLE_refl fee t
      · cases ht
  | cons c cs ih =>
      intro b
      simp only [List.foldl_cons]
      obtain ⟨hmem, hle⟩ := ih (if tierBetter fee c b then c else b)
      constructor
      · rcases hmem with h | h
        · rw [h]
          by_cases hb : tierBetter fee c b
          · rw [if_pos hb]
            exact Or.inr (List.mem_cons_self c cs)
          · rw [if_neg hb]
            exact Or.inl rfl
        · exact Or.inr (List.mem_cons_of_mem c h)
      · rintro t (rfl | ht)
        · exact tierLE_trans fee (hle _ (Or.inl rfl)) (step_tierLE_left fee t c)
        · rcases List.mem_cons.mp ht with rfl | hcs
          · exact tierLE_trans fee (hle _ (Or.inl rfl)) (step_tierLE_right fee b t)
          · exact hle t (Or.inr hcs)

/-- **C1**: `select_tier` returns a tier whose key exactly matches the
requested fee when one is present; otherwise every returned tier belongs to
the table and is nearest to the requested fee in the lexicographic
(distance, tier value) order — i.e. minimal absolute distance, equidistant
ties resolved toward the lower tier value; and on the spec's example, tiers
`{1, 3/2, 2, 5/2}` with requested fee `6/5` select tier `1`. -/
theorem select_tier_correct (tiers : List (ℚ × ManualTable)) (fee : ℚ) :
    ((∃ tb, (fee, tb) ∈ tiers) → ∃ tb, select_tier tiers fee = some (fee, tb))
    ∧ ((∀ t ∈ tiers, t.1 ≠ fee) → ∀ r, select_tier tiers fee = some r →
        r ∈ tiers ∧ ∀ t ∈ tiers, tierLE fee r t)
    ∧ select_tier [((1 : ℚ), ([] : ManualTable)), (3/2, []), (2, []), (5/2, [])]
        (6/5) = some (1, []) := by
  refine ⟨?_, ?_, ?_⟩
  · rintro ⟨tb, hmem⟩
    have hsome : (tiers.find? (fun t => decide (t.1 = fee))).isSome :=
      List.find?_isSome.mpr ⟨(fee, tb), hmem, by simp⟩
    obtain ⟨t', ht'⟩ := Option.isSome_iff_exists.mp hsome
    have hp := List.find?_some ht'
    simp only [decide_eq_true_eq] at hp
    refine ⟨t'.2, ?_⟩
    unfold select_tier
    rw [ht']
    obtain ⟨a, b2⟩ := t'
    simp only at hp
    subst hp
    rfl
  · intro hnone r hr
    have hfind : tiers.find? (fun t => decide (t.1 = fee)) = none := by
      rw [List.find?_eq_none]
      intro x hx
      simp [hnone x hx]
    unfold select_tier at hr
    rw [hfind] at hr
    cases tiers with
    | nil => cases hr
    | cons t ts =>
        have heq : ts.foldl (fun best c => if tierBetter fee c best then c else best) t = r :=
          Option.some.inj hr
        obtain ⟨hmem, hle⟩ := foldl_best_spec fee ts t
        rw [heq] at hmem hle
        constructor
        · rcases hmem with h | h
          · rw [h]
            exact List.mem_cons_self t ts
          · exact List.mem_cons_of_mem t h
        · intro u hu
          rcases List.mem_cons.mp hu with rfl | hts
          · exact hle u (Or.inl rfl)
          · exact hle u (Or.inr hts)
  · have e1 : (decide ((1 : ℚ) = 6/5)) = false := by norm_num
    have e2 : (decide ((3/2 : ℚ) = 6/5)) = false := by norm_num
    have e3 : (decide ((2 : ℚ) = 6/5)) = false := by norm_num
    have e4 : (decide ((5/2 : ℚ) = 6/5)) = false := by norm_num
    have a1 : |(1 : ℚ) - 6/5| = 1/5 := by
      rw [abs_of_nonpos (by norm_num)]
      norm_num
    have a2 : |(3/2 : ℚ) - 6/5| = 3/10 := by
      rw [abs_of_nonneg (by norm_num)]
      norm_num
    have a3 : |(2 : ℚ) - 6/5| = 4/5 := by
      rw [abs_of_nonneg (by norm_num)]
      norm_num
    have a4 : |(5/2 : ℚ) - 6/5| = 13/10 := by
      rw [abs_of_nonneg (by norm_num)]
      norm_num
    have n2 : ¬ tierBetter (6/5) ((3/2 : ℚ), ([] : ManualTable)) (1, []) := by
      unfold tierBetter
      rw [a1, a2]
      norm_num
    have n3 : ¬ tierBetter (6/5) ((2 : ℚ), ([] : ManualTable)) (1, []) := by
      unfold tierBetter
      rw [a1, a3]
      norm_num
    have n4 : ¬ tierBetter (6/5) ((5/2 : ℚ), ([] : ManualTable)) (1, []) := by
      unfold tierBetter
      rw [a1, a4]
      norm_num
    unfold select_tier
    simp only [List.find?, e1, e2, e3, e4, List.foldl, if_neg n2, if_neg n3, if_neg n4]

/-- Witness for C1 at concrete inputs: an exact-match table returns its
matching tier, and with tiers `{1, 2}` and requested fee `5` the scan's
result `2` is in the table and nearest to the fee. -/
theorem select_tier_correct_witness :
    (∃ tb, select_tier [((2 : ℚ), ([] : ManualTable))] 2 = some (2, tb))
    ∧ ((2, ([] : ManualTable)) ∈ [((1 : ℚ), ([] : ManualTable)), (2, [])]
        ∧ ∀ t ∈ [((1 : ℚ), ([] : ManualTable)), (2, [])], tierLE 5 (2, []) t) := by
  have e1 : (decide ((1 : ℚ) = 5)) = false := by norm_num
  have e2 : (decide ((2 : ℚ) = 5)) = false := by norm_num
  have b1 : tierBetter 5 ((2 : ℚ), ([] : ManualTable)) (1, []) := by
    unfold tierBetter
    left
    rw [abs_of_nonpos (by norm_num), abs_of_nonpos (by norm_num)]
    norm_num
  have hsel : select_tier [((1 : ℚ), ([] : ManualTable)), (2, [])] 5 = some (2, []) := by
    unfold select_tier
    simp only [List.find?, e1, e2, List.foldl, if_pos b1]
  constructor
  · exact (select_tier_correct [((2 : ℚ), ([] : ManualTable))] 2).1 ⟨[], by simp⟩
  · exact (select_tier_correct [((1 : ℚ), ([] : ManualTable)), (2, [])] 5).2.1
      (by intro t ht; fin_cases ht <;> norm_num) (2, []) hsel

end Theorems

end Bot
